import Mathlib

set_option autoImplicit false

/-!
Shallow embedding of the csvquerytool ingestion engine
(src/csvquerytool/__init__.py).

The module is Python 2 source: it uses the statement form
`print >> sys.stderr, e` (line 197) and the builtin `unicode` (line 136),
both of which exist only in Python 2.  A CSV cell produced by
`csv.reader` is therefore a Python 2 `str`, i.e. a byte string, modelled
here as `List Nat` with one entry per byte.

Python 2 behaviour baked into the embedding (restated at each
definition site):

* `s.decode(DEFAULT_ENCODING)` on a byte string raises
  `UnicodeDecodeError` when `s` is not valid UTF-8, so the TEXT cast can
  fail.
* `bytes(s, DEFAULT_ENCODING)` is `str(s, DEFAULT_ENCODING)` because
  `bytes is str` in Python 2, and calling `str` with an encoding
  argument on a `str` value raises `TypeError: str() takes at most 1
  argument (2 given)`.  Hence the BLOB cast fails on every input.
* `format_row` renders floats with the format `"%f"`, which always
  emits six fractional digits; the trailing-zero stripping exists only
  in the unused module constant `FORMAT_FUNCS`.

The sqlite3 connection is an external collaborator: `create_table`
below returns the schema it would send with `CREATE TABLE` and the
typed rows it would send with `INSERT`, instead of calling an engine.
`GUESS_TYPE_FROM_N_ROWS` is a module constant in the source; following
the configuration table of the specification (sampleSize), the sample
size is an explicit argument here, with the module value kept as the
default constant.
-/

/-! ## Byte-string primitives -/

/-- Bytes of an ASCII string literal, used to write byte strings readably. -/
def bytesOf (s : String) : List Nat := s.data.map Char.toNat

/-- Python `str.isspace` bytes: space, tab, LF, VT, FF, CR.  These are the
bytes removed by `str.strip()` with no argument. -/
def isSpaceByte (b : Nat) : Bool :=
  b == 32 || b == 9 || b == 10 || b == 11 || b == 12 || b == 13

/-- Python `s.strip()`: drop leading and trailing whitespace bytes. -/
def pyStrip (s : List Nat) : List Nat :=
  ((s.dropWhile isSpaceByte).reverse.dropWhile isSpaceByte).reverse

/-- Python `s.strip(chars)`: drop leading and trailing bytes that occur in
`chars`. -/
def pyStripChars (chars : List Nat) (s : List Nat) : List Nat :=
  ((s.dropWhile (chars.contains ·)).reverse.dropWhile (chars.contains ·)).reverse

/-- Lines 19-20: `stripped_string(s)` returns
`s.strip(percent dollar question).replace(comma, empty)`: first strip the
bytes `%` (37), `$` (36), `?` (63) from both ends, then delete every
comma (44). -/
def stripped_string (s : List Nat) : List Nat :=
  (pyStripChars [37, 36, 63] s).filter (fun b => b != 44)

/-- ASCII decimal digit test. -/
def isDigitByte (b : Nat) : Bool := 48 ≤ b && b ≤ 57

/-- Numeric value of a list of ASCII digits. -/
def digitsVal (ds : List Nat) : Nat := ds.foldl (fun acc b => 10 * acc + (b - 48)) 0

/-- Python 2 `int(s)` on a byte string, base 10: optional surrounding
whitespace, an optional single sign, then one or more ASCII digits.
Returns `none` where Python raises `ValueError`. -/
def pyInt (s : List Nat) : Option Int :=
  match pyStrip s with
  | [] => none
  | c :: rest =>
    let signed : Bool × List Nat :=
      if c == 43 then (false, rest)
      else if c == 45 then (true, rest)
      else (false, c :: rest)
    if signed.2.isEmpty || !(signed.2.all isDigitByte) then none
    else some (if signed.1 then -(digitsVal signed.2 : Int) else (digitsVal signed.2 : Int))

/-- Lower-case an ASCII byte. -/
def lowerByte (b : Nat) : Nat := if 65 ≤ b && b ≤ 90 then b + 32 else b

/-- Mantissa of a Python float literal: `digits [. digits*]` or `. digits+`. -/
def floatMantissaOk (t : List Nat) : Bool :=
  let ds1 := t.takeWhile isDigitByte
  match t.drop ds1.length with
  | [] => !ds1.isEmpty
  | 46 :: r2 =>
    let ds2 := r2.takeWhile isDigitByte
    (r2.drop ds2.length).isEmpty && (!ds1.isEmpty || !ds2.isEmpty)
  | _ => false

/-- Exponent part of a Python float literal, after the `e`: an optional
sign then one or more digits. -/
def floatExpDigitsOk (ep : List Nat) : Bool :=
  match ep with
  | [] => false
  | c :: rest =>
    let ds := if c == 43 || c == 45 then rest else c :: rest
    !ds.isEmpty && ds.all isDigitByte

/-- Body of a Python float literal after the optional sign:
`inf`, `infinity`, `nan` (case-insensitive) or mantissa with optional
exponent. -/
def floatBodyOk (t : List Nat) : Bool :=
  let lt := t.map lowerByte
  if lt == bytesOf "inf" || lt == bytesOf "infinity" || lt == bytesOf "nan" then true
  else
    let mant := t.takeWhile (fun b => b != 101 && b != 69)
    match t.drop mant.length with
    | [] => floatMantissaOk mant
    | _ :: expPart => floatMantissaOk mant && floatExpDigitsOk expPart

/-- Python 2 `float(s)` success predicate on a byte string: optional
surrounding whitespace, optional sign, then a float body.  The numeric
value is never consulted by the code under verification (only success,
failure, and the rendering of query results, which sqlite produces),
so only acceptance is modelled. -/
def pyFloatOk (s : List Nat) : Bool :=
  match pyStrip s with
  | [] => false
  | c :: rest => floatBodyOk (if c == 43 || c == 45 then rest else c :: rest)

/-- Continuation byte of a UTF-8 sequence. -/
def isCont (b : Nat) : Bool := 128 ≤ b && b ≤ 191

/-- Success predicate of the CPython 2.7 UTF-8 decoder, used by
`s.decode(DEFAULT_ENCODING)`: rejects overlong forms (C0, C1, and the
restricted ranges after E0, F0, F4), rejects start bytes above F4,
and accepts surrogate code points (the Python 2 codec decodes them). -/
def utf8Valid : List Nat → Bool
  | [] => true
  | b :: rest =>
    if b ≤ 127 then utf8Valid rest
    else if 194 ≤ b && b ≤ 223 then
      match rest with
      | c1 :: r => isCont c1 && utf8Valid r
      | [] => false
    else if b == 224 then
      match rest with
      | c1 :: c2 :: r => (160 ≤ c1 && c1 ≤ 191) && isCont c2 && utf8Valid r
      | _ => false
    else if 225 ≤ b && b ≤ 239 then
      match rest with
      | c1 :: c2 :: r => isCont c1 && isCont c2 && utf8Valid r
      | _ => false
    else if b == 240 then
      match rest with
      | c1 :: c2 :: c3 :: r => (144 ≤ c1 && c1 ≤ 191) && isCont c2 && isCont c3 && utf8Valid r
      | _ => false
    else if 241 ≤ b && b ≤ 243 then
      match rest with
      | c1 :: c2 :: c3 :: r => isCont c1 && isCont c2 && isCont c3 && utf8Valid r
      | _ => false
    else if b == 244 then
      match rest with
      | c1 :: c2 :: c3 :: r => (128 ≤ c1 && c1 ≤ 143) && isCont c2 && isCont c3 && utf8Valid r
      | _ => false
    else false

/-- Lower-case hex digit byte for a value below 16. -/
def hexDigitByte (n : Nat) : Nat := if n < 10 then 48 + n else 87 + n

/-- Quote byte chosen by the Python 2 `repr` of a byte string: a single
quote (39), unless the string contains one and no double quote (34). -/
def reprQuote (s : List Nat) : Nat :=
  if s.contains 39 && !(s.contains 34) then 34 else 39

/-- Escape of one byte inside the Python 2 `repr` of a byte string. -/
def reprEscape (q : Nat) (b : Nat) : List Nat :=
  if b == q || b == 92 then [92, b]
  else if b == 10 then [92, 110]
  else if b == 13 then [92, 114]
  else if b == 9 then [92, 116]
  else if b < 32 || 127 ≤ b then [92, 120, hexDigitByte (b / 16), hexDigitByte (b % 16)]
  else [b]

/-- Python 2 `repr` of a byte string, as produced by the `%r` format used
in the error messages of `create_table` and by `int()` failures. -/
def pyRepr (s : List Nat) : List Nat :=
  let q := reprQuote s
  [q] ++ s.foldr (fun b acc => reprEscape q b ++ acc) [] ++ [q]

/-- Decimal digit bytes of a natural number, little-endian accumulator with
fuel (`fuel ≥ n` suffices since a number has at most `n` digits for
`n ≥ 1`). -/
def natToBytesAux : Nat → Nat → List Nat
  | 0, _ => []
  | fuel + 1, n => if n = 0 then [] else (n % 10 + 48) :: natToBytesAux fuel (n / 10)

/-- Decimal rendering of a natural number, as Python `"%d" % n` for
`n ≥ 0`. -/
def numBytes (n : Nat) : List Nat :=
  if n = 0 then [48] else (natToBytesAux n n).reverse

/-! ## Cast functions (lines 19-27) -/

/-- Outcome of applying one Python cast function to one byte string:
either a value bound into the INSERT statement, or the exception the
cast raises. -/
inductive PyVal where
  | vNone
  | vInt (z : Int)
  | vFloat
  | vText
  deriving DecidableEq

/-- Exceptions raised by the cast functions.  `unicodeDecodeError`
carries the attributes `encoding` and `object` read by the handler in
`create_table` (line 112).  The values of parsed floats and decoded
text are never consulted downstream, so `vFloat` and `vText` carry no
payload. -/
inductive PyExc where
  | valueError (msg : List Nat)
  | unicodeDecodeError (encodingName : List Nat) (object : List Nat)
  | typeError
  deriving DecidableEq

/-- Message prefix of a Python 2 `int()` failure; the offending string
follows in `repr` form. -/
def INT_ERR : List Nat := bytesOf "invalid literal for int() with base 10: "

/-- Message prefix of a Python 2.7 `float()` failure; the offending
string follows verbatim. -/
def FLOAT_ERR : List Nat := bytesOf "could not convert string to float: "

/-- Normalized codec name carried by a `UnicodeDecodeError` raised while
decoding with `DEFAULT_ENCODING` (UTF-8). -/
def UTF8_NAME : List Nat := bytesOf "utf8"

/-- A cast function: one entry of `CAST_FUNCS` applied to one cell. -/
abbrev CastFn := List Nat → Except PyExc PyVal

/-- Line 23: `lambda s: int(stripped_string(s)) if stripped_string(s) != empty
else None`. -/
def int_cast : CastFn := fun s =>
  if stripped_string s = [] then .ok .vNone
  else
    match pyInt (stripped_string s) with
    | some z => .ok (.vInt z)
    | none => .error (.valueError (INT_ERR ++ pyRepr (stripped_string s)))

/-- Line 24: `lambda s: float(stripped_string(s)) if stripped_string(s) != empty
else None`. -/
def float_cast : CastFn := fun s =>
  if stripped_string s = [] then .ok .vNone
  else if pyFloatOk (stripped_string s) then .ok .vFloat
  else .error (.valueError (FLOAT_ERR ++ stripped_string s))

/-- Line 25: `lambda s: s.decode(DEFAULT_ENCODING)`.  On a Python 2 byte
string this fails with `UnicodeDecodeError` exactly when `s` is not
valid UTF-8; the exception object carries the codec name and the whole
input string. -/
def text_cast : CastFn := fun s =>
  if utf8Valid s then .ok .vText else .error (.unicodeDecodeError UTF8_NAME s)

/-- Line 26: `lambda s: bytes(s, DEFAULT_ENCODING)`.  In Python 2 `bytes`
is `str`, and `str(s, encoding)` on a `str` argument raises
`TypeError: str() takes at most 1 argument (2 given)` for every input,
so this cast never succeeds. -/
def blob_cast : CastFn := fun _ => .error .typeError

/-- Lines 22-27: the ordered candidate list `CAST_FUNCS`, pairing each
cast function with the sqlite type name used in the schema. -/
def CAST_FUNCS : List (CastFn × String) :=
  [(int_cast, "INTEGER"), (float_cast, "FLOAT"), (text_cast, "TEXT"), (blob_cast, "BLOB")]

/-- Whether a cast function succeeds on a cell (the `try` of
`guess_type` does not raise for this value). -/
def castOk (f : CastFn) (v : List Nat) : Bool :=
  match f v with
  | .ok _ => true
  | .error _ => false

/-- Lines 40-48 generalized over the candidate list: try each candidate
on the whole sample; on the first candidate that raises no exception,
return it; if the list is exhausted, raise (the error carries the
sample, which the Python message renders with `%r`). -/
def guess_type_over : List (CastFn × String) → List (List Nat) → Except (List (List Nat)) (CastFn × String)
  | [], exampleData => .error exampleData
  | ft :: rest, exampleData =>
    if exampleData.all (fun v => castOk ft.1 v) then .ok ft
    else guess_type_over rest exampleData

/-- Lines 40-48: `guess_type(example_data)` over `CAST_FUNCS`. -/
def guess_type (exampleData : List (List Nat)) : Except (List (List Nat)) (CastFn × String) :=
  guess_type_over CAST_FUNCS exampleData

/-! ## Unique-name assignment (lines 50-58 and 139-165) -/

/-- Candidate sequence scanned by the suffixing loops, generalized to an
intermediate loop state: position 0 is the name currently held, and
position `k + 1` is the base name followed by the decimal digits of
`n + k`.  The loops of `rename_duplicates` and `choose_table_names`
start with the base name itself and counter 2, so from the top of the
loop the sequence is: base, base2, base3, ... -/
def loopCand (orig current : List Nat) (n : Nat) : Nat → List Nat
  | 0 => current
  | k + 1 => orig ++ numBytes (n + k)

/-- The inner loop of `rename_duplicates` (lines 53-56) and of
`choose_table_names` (lines 160-163): keep the current candidate if it
does not occur among the already assigned names, otherwise move to the
base name suffixed with the next counter value.  The Python loop is
unbounded (`itertools.count`); here it carries fuel, and `pickFuel`
below is large enough that the loop always finds a free name before
exhaustion (see `first_free_name_spec`). -/
def pick_loop (orig : List Nat) (prior : List (List Nat)) : Nat → Nat → List Nat → List Nat
  | 0, _, current => current
  | fuel + 1, n, current =>
    if current ∈ prior then pick_loop orig prior fuel (n + 1) (orig ++ numBytes n)
    else current

/-- Length of the longest already assigned name. -/
def maxNameLen (prior : List (List Nat)) : Nat := (prior.map List.length).foldr max 0

/-- Fuel for `pick_loop`: by then the candidate has more digits than any
assigned name has bytes, so it cannot collide. -/
def pickFuel (prior : List (List Nat)) : Nat := 10 ^ (maxNameLen prior + 1)

/-- First name of the sequence base, base2, base3, ... that does not
occur among the already assigned names. -/
def first_free_name (orig : List Nat) (prior : List (List Nat)) : List Nat :=
  pick_loop orig prior (pickFuel prior) 2 orig

/-- Left-to-right assignment shared by `rename_duplicates` (which checks
`col_name not in header[:col_num]`, the finalized prefix of the
in-place mutated list) and `choose_table_names` (which checks
`table_name not in table_names`, the names appended so far): both keep
a finalized prefix and pick the first free candidate for each position. -/
def dedup_names_go (done : List (List Nat)) : List (List Nat) → List (List Nat)
  | [] => done
  | orig :: rest => dedup_names_go (done ++ [first_free_name orig done]) rest

/-- Lines 50-58: `rename_duplicates(header)`. -/
def rename_duplicates (header : List (List Nat)) : List (List Nat) :=
  dedup_names_go [] header

/-- POSIX `os.path.basename`: the bytes after the last slash (47). -/
def basename (p : List Nat) : List Nat :=
  (p.reverse.takeWhile (fun b => b != 47)).reverse

/-- Index of the last occurrence of a byte, if any. -/
def lastIndexOfByte (x : Nat) (l : List Nat) : Option Nat :=
  match l.reverse.findIdx? (fun b => b == x) with
  | some i => some (l.length - 1 - i)
  | none => none

/-- Root part of `os.path.splitext` applied to a name without
separators: split at the last dot only if some earlier byte of the name
is not a dot (so dotfiles such as `.bashrc` keep their dot). -/
def splitext_root (b : List Nat) : List Nat :=
  match lastIndexOfByte 46 b with
  | none => b
  | some d => if (b.take d).any (fun c => c != 46) then b.take d else b

/-- Lines 156-159: the base table name for one file: the file name
without extension, or the literal `csv` in generic mode. -/
def table_base_name (based_on_filename : Bool) (f : List Nat) : List Nat :=
  if based_on_filename then splitext_root (basename f) else bytesOf "csv"

/-- Lines 139-165: `choose_table_names(csv_files, based_on_filename)`. -/
def choose_table_names (csv_files : List (List Nat)) (based_on_filename : Bool) : List (List Nat) :=
  dedup_names_go [] (csv_files.map (table_base_name based_on_filename))

/-! ## Table loading (lines 60-123) -/

/-- Line 13: the sampling window size, kept as the default value of the
explicit sample-size argument of `create_table`. -/
def GUESS_TYPE_FROM_N_ROWS : Nat := 10000

/-- Line 14: `ROW_PADDING_STRING`, the empty string. -/
def ROW_PADDING_STRING : List Nat := []

/-- Line 77, pad mode sampling: `row[col_num].strip() if len(row) > col_num
else ROW_PADDING_STRING`.  Note that the padding value is used
unstripped. -/
def example_cell (row : List (List Nat)) (col : Nat) : List Nat :=
  if col < row.length then pyStrip (row.getD col []) else ROW_PADDING_STRING

/-- Failures of `create_table`.  All of them are `ValueError` in Python
except `programmingError` (a sqlite3 binding-count mismatch, reachable
in pad mode for a row longer than the header) and `uncaughtTypeError`
(a `TypeError` escaping the `except ValueError` handler; no guessed
cast raises one).  `noMatchingType` carries the sample that matched no
candidate (line 48 renders it with `%r`); `convError` carries the
message of the `ValueError` raised at lines 113 and 115. -/
inductive LoadError where
  | noMatchingType (exampleData : List (List Nat))
  | rowLengthMismatch
  | convError (msg : List Nat)
  | programmingError
  | uncaughtTypeError
  deriving DecidableEq

/-- Lines 76-82: the per-column sample.  In pad mode every row
contributes `example_cell`; in strict mode the comprehension
`row[col_num].strip()` raises `IndexError` when some row is shorter
than the header, which line 82 converts to the row-length error.
Rows longer than the header pass this stage in both modes. -/
def example_data_for (pad_rows : Bool) (rows : List (List (List Nat))) (col : Nat) :
    Except LoadError (List (List Nat)) :=
  if pad_rows then .ok (rows.map (fun row => example_cell row col))
  else if rows.all (fun row => decide (col < row.length)) then
    .ok (rows.map (fun row => pyStrip (row.getD col [])))
  else .error .rowLengthMismatch

/-- Lines 75-84: build the sample and guess the type for each column
index in order, collecting the cast function and sqlite type name per
column. -/
def infer_cols (pad_rows : Bool) (rows : List (List (List Nat))) :
    List Nat → Except LoadError (List (CastFn × String))
  | [] => .ok []
  | c :: cs =>
    match example_data_for pad_rows rows c with
    | .error e => .error e
    | .ok exampleData =>
      match guess_type exampleData with
      | .error d => .error (.noMatchingType d)
      | .ok ft =>
        match infer_cols pad_rows rows cs with
        | .error e => .error e
        | .ok fts => .ok (ft :: fts)

/-- Line 115 message prefix: the `ValueError` raised when a row fails to
convert to the guessed types, suggesting a larger sampling window; the
message of the originating exception follows. -/
def SUGGESTION : List Nat :=
  bytesOf "failed to convert row to guessed type, try increasing GUESS_TYPE_FROM_N_ROWS to improve guesses: "

/-- Line 113 message: the `ValueError` raised when the originating
exception has an `encoding` attribute (a `UnicodeDecodeError`): not a
valid (codec) sequence, followed by the `repr` of the undecodable
string.  The single quotes around the codec name are byte 39. -/
def decode_err_msg (encodingName object : List Nat) : List Nat :=
  bytesOf "not a valid " ++ [39] ++ encodingName ++ [39] ++ bytesOf " sequence: " ++ pyRepr object

/-- Lines 109-115: how an exception escaping the conversion
comprehension is reported.  `except ValueError` catches both
`ValueError` and its subclass `UnicodeDecodeError` (distinguished by
`hasattr(ex, encoding)`); a `TypeError` would escape uncaught. -/
def wrap_exc : PyExc → LoadError
  | .valueError m => .convError (SUGGESTION ++ m)
  | .unicodeDecodeError enc obj => .convError (decode_err_msg enc obj)
  | .typeError => .uncaughtTypeError

/-- Line 110: `[guessed_type[col_name](val.strip()) for col_name, val in
zip(header, row)]` - apply each cast to its stripped cell, left to
right, stopping at the first exception.  `zip` truncates to the
shorter list. -/
def convert_cells : List (CastFn × List Nat) → Except PyExc (List PyVal)
  | [] => .ok []
  | (f, v) :: rest =>
    match f (pyStrip v) with
    | .error e => .error e
    | .ok tv =>
      match convert_cells rest with
      | .error e => .error e
      | .ok tvs => .ok (tv :: tvs)

/-- Lines 104-105: pad a row to the header length with
`ROW_PADDING_STRING` (`max(0, len(header) - len(row))` copies). -/
def padded_row (headerLen : Nat) (row : List (List Nat)) : List (List Nat) :=
  row ++ List.replicate (headerLen - row.length) ROW_PADDING_STRING

/-- Lines 102-120, one iteration: length policy, conversion, then the
engine INSERT.  In pad mode the INSERT carries `len(row)` placeholders
(the padded row) but `len(header)` converted values, so sqlite raises
a binding-count `ProgrammingError` when the padded row is longer than
the header; in strict mode a length mismatch raises the row-length
`ValueError` before conversion. -/
def insert_row (pad_rows : Bool) (headerLen : Nat) (casts : List CastFn) (row : List (List Nat)) :
    Except LoadError (List PyVal) :=
  if pad_rows then
    let r := padded_row headerLen row
    match convert_cells (casts.zip r) with
    | .error e => .error (wrap_exc e)
    | .ok tr => if r.length = headerLen then .ok tr else .error .programmingError
  else if row.length = headerLen then
    match convert_cells (casts.zip row) with
    | .error e => .error (wrap_exc e)
    | .ok tr => .ok tr
  else .error .rowLengthMismatch

/-- Lines 102-122: insert every row in order, stopping at the first
failure. -/
def insert_all (pad_rows : Bool) (headerLen : Nat) (casts : List CastFn) :
    List (List (List Nat)) → Except LoadError (List (List PyVal))
  | [] => .ok []
  | row :: rest =>
    match insert_row pad_rows headerLen casts row with
    | .error e => .error e
    | .ok tr =>
      match insert_all pad_rows headerLen casts rest with
      | .error e => .error e
      | .ok trs => .ok (tr :: trs)

/-- Lines 60-123: `create_table`.  Input: the header row and the data
rows as read by `csv.reader`.  Output: the schema (column name and
sqlite type name, in order) and the typed rows inserted.  Steps: strip
the header cells (line 66); rename duplicates (line 68,
`AUTO_RENAME_DUPLICATE_COLUMN_NAMES` is the constant `True`); sample
the first `sample_size` rows (line 73); guess each column type (lines
75-84); emit the schema (lines 88-93, the renamed names are unique so
the `dict` keyed by column name is faithful to the column order); then
convert and insert the sampled rows followed by the remaining rows
(line 102, `itertools.chain(detect_type_rows, reader)`). -/
def create_table (sample_size : Nat) (pad_rows : Bool)
    (raw_header : List (List Nat)) (rows : List (List (List Nat))) :
    Except LoadError (List ((List Nat) × String) × List (List PyVal)) :=
  let header := rename_duplicates (raw_header.map pyStrip)
  let detect := rows.take sample_size
  match infer_cols pad_rows detect (List.range header.length) with
  | .error e => .error e
  | .ok fts =>
    match insert_all pad_rows header.length (fts.map (·.1)) (detect ++ rows.drop sample_size) with
    | .error e => .error e
    | .ok typed => .ok (header.zip (fts.map (·.2)), typed)

/-! ## Result formatting (lines 29-32 and 125-137) -/

/-- A cell of a sqlite result row as returned to Python: NULL becomes
`None`, INTEGER an int (or long, rendered identically), FLOAT a float,
TEXT a unicode string (already encoded back to bytes here, since no
claim inspects re-encoding).  The float value is modelled as the exact
rational the formatting examples denote; `%f` rounding is
round-half-even on that rational. -/
inductive SqlCell where
  | cNull
  | cInt (z : Int)
  | cFloat (q : Rat)
  | cText (s : List Nat)
  deriving DecidableEq

/-- Python `"%d" % z`. -/
def formatD (z : Int) : List Nat :=
  if z < 0 then 45 :: numBytes z.natAbs else numBytes z.natAbs

/-- Round `num / den` (with `den > 0`) to the nearest integer, ties to
even, as C `printf` does for `%f`. -/
def halfEvenScaled (num den : Nat) : Nat :=
  let q := num / den
  let r := num % den
  if 2 * r < den then q
  else if den < 2 * r then q + 1
  else if q % 2 == 0 then q else q + 1

/-- Python `"%f" % x`: fixed-point with exactly six fractional digits,
trailing zeros kept. -/
def formatF (x : Rat) : List Nat :=
  let m := halfEvenScaled (x.num.natAbs * 1000000) x.den
  let ds := numBytes (m % 1000000)
  (if x.num < 0 then [45] else [])
    ++ numBytes (m / 1000000) ++ [46] ++ (List.replicate (6 - ds.length) 48 ++ ds)

/-- Python 2 `unicode(cell)` for the cells reaching the final branch of
`format_row`: `None` renders as `None`, text renders as itself.  The
numeric branches are matched earlier in `format_row` and are given
their numeric renderings here only to keep the function total. -/
def pyUnicodeRender : SqlCell → List Nat
  | .cNull => bytesOf "None"
  | .cText s => s
  | .cInt z => formatD z
  | .cFloat q => formatF q

/-- Lines 125-137: `format_row`.  Ints render with `"%d"`, floats with
`"%f"` (six fractional digits, no stripping), everything else through
`unicode`; the final `.encode` pass is the identity on these ASCII or
already-encoded byte strings. -/
def format_row (row : List SqlCell) : List (List Nat) :=
  row.map (fun cell =>
    match cell with
    | .cInt z => formatD z
    | .cFloat q => formatF q
    | other => pyUnicodeRender other)

/-- Python `s.rstrip(byte)`: drop trailing copies of one byte. -/
def rstripByte (x : Nat) (s : List Nat) : List Nat :=
  (s.reverse.dropWhile (fun b => b == x)).reverse

/-- Lines 29-32: the float entry of the module constant `FORMAT_FUNCS`:
`lambda x: ("%f" % x).rstrip(zero).rstrip(dot)`.  No code in the module
reads `FORMAT_FUNCS`; `format_row` does not apply this stripping. -/
def FORMAT_FUNCS_float (q : Rat) : List Nat :=
  rstripByte 46 (rstripByte 48 (formatF q))

/-- Check whether `pat` occurs contiguously at the front of `l`. -/
def leadsWith : List Nat → List Nat → Bool
  | [], _ => true
  | _ :: _, [] => false
  | a :: as, b :: bs => a == b && leadsWith as bs

/-- Check whether `pat` occurs contiguously anywhere in `l`, used to
state that an error message names a value or contains the suggestion. -/
def containsSeq (pat : List Nat) : List Nat → Bool
  | [] => leadsWith pat []
  | l@(_ :: rest) => leadsWith pat l || containsSeq pat rest

/-! ## Helper lemmas -/

theorem castOk_ok {f : CastFn} {v : List Nat} (h : castOk f v = true) : ∃ w, f v = .ok w := by
  unfold castOk at h
  cases hfv : f v with
  | ok w => exact ⟨w, rfl⟩
  | error e => rw [hfv] at h; cases h

theorem castOk_of_ok {f : CastFn} {v : List Nat} {w : PyVal} (h : f v = .ok w) : castOk f v = true := by
  unfold castOk
  rw [h]

theorem getD_append_lt {α : Type} (d : α) :
    ∀ (l₁ l₂ : List α) (i : Nat), i < l₁.length → (l₁ ++ l₂).getD i d = l₁.getD i d := by
  intro l₁
  induction l₁ with
  | nil => intro l₂ i h; cases h
  | cons a t ih =>
    intro l₂ i h
    cases i with
    | zero => rfl
    | succ i => exact ih l₂ i (by simpa using h)

theorem getD_append_ge {α : Type} (d : α) :
    ∀ (l₁ l₂ : List α) (i : Nat), l₁.length ≤ i → (l₁ ++ l₂).getD i d = l₂.getD (i - l₁.length) d := by
  intro l₁
  induction l₁ with
  | nil => intro l₂ i _; rfl
  | cons a t ih =>
    intro l₂ i h
    cases i with
    | zero => cases h
    | succ i =>
      have := ih l₂ i (by simpa using h)
      simpa using this

theorem getD_replicate_lt {α : Type} (d x : α) :
    ∀ (k j : Nat), j < k → (List.replicate k x).getD j d = x := by
  intro k
  induction k with
  | zero => intro j h; cases h
  | succ k ih =>
    intro j h
    cases j with
    | zero => rfl
    | succ j => exact ih j (by omega)

theorem getD_map_index {α β : Type} (g : α → β) (d : α) :
    ∀ (l : List α) (i : Nat), i < l.length → (l.map g).getD i (g d) = g (l.getD i d) := by
  intro l
  induction l with
  | nil => intro i h; cases h
  | cons a t ih =>
    intro i h
    cases i with
    | zero => rfl
    | succ i => exact ih i (by simpa using h)

theorem leadsWith_append : ∀ (pat t : List Nat), leadsWith pat (pat ++ t) = true := by
  intro pat
  induction pat with
  | nil => intro t; rfl
  | cons a p ih => intro t; simp [leadsWith, ih]

theorem containsSeq_cons_of (pat : List Nat) (b : Nat) (l : List Nat)
    (h : containsSeq pat l = true) : containsSeq pat (b :: l) = true := by
  cases pat with
  | nil => rfl
  | cons a p => simp [containsSeq, h]

theorem containsSeq_of_append : ∀ (pre pat suf : List Nat), containsSeq pat (pre ++ (pat ++ suf)) = true := by
  intro pre
  induction pre with
  | nil =>
    intro pat suf
    cases pat with
    | nil => cases suf with
      | nil => rfl
      | cons b t => simp [containsSeq, leadsWith]
    | cons a p =>
      simp only [containsSeq]
      rw [Bool.or_eq_true]
      exact Or.inl (leadsWith_append (a :: p) suf)
  | cons b pre ih =>
    intro pat suf
    exact containsSeq_cons_of pat b _ (ih pat suf)

theorem map_const_replicate {α β : Type} (b : β) :
    ∀ (l : List α), l.map (fun _ => b) = List.replicate l.length b := by
  intro l
  induction l with
  | nil => rfl
  | cons a t ih => simp [ih, List.replicate]

theorem zip_self_replicate {α β : Type} (b : β) :
    ∀ (l : List α), l.zip (List.replicate l.length b) = l.map (fun a => (a, b)) := by
  intro l
  induction l with
  | nil => rfl
  | cons a t ih => simp [List.replicate, ih]

/-! ## Claim C1 (Row Formatter) -/

/-- C1 counterexample: `format_row` does not strip trailing zeros from
floats: the float 3.14 renders as `3.140000`, not `3.14`, and 5.0
renders as `5.000000`, not `5`. -/
theorem c1_counterexample :
    format_row [.cFloat (mkRat 157 50), .cFloat 5] = [bytesOf "3.140000", bytesOf "5.000000"] ∧
    format_row [.cFloat 5] ≠ [bytesOf "5"] ∧
    format_row [.cFloat (mkRat 157 50)] ≠ [bytesOf "3.14"] :=
  ⟨by decide, by decide, by decide⟩

/-- C1 (amended): `format_row` renders an integer 42 as `42` and a
floating-point value with `%f`, i.e. fixed-point with exactly six
fractional digits and trailing zeros kept: 3.14 renders as `3.140000`
and 5.0 as `5.000000`.  The trailing-zero and trailing-dot stripping
described by the claim exists only in the unused `FORMAT_FUNCS` table,
whose float entry indeed maps 3.14 to `3.14` and 5.0 to `5`. -/
theorem c1_format_row_fixed_point :
    format_row [.cInt 42, .cFloat (mkRat 157 50), .cFloat 5]
      = [bytesOf "42", bytesOf "3.140000", bytesOf "5.000000"] ∧
    FORMAT_FUNCS_float (mkRat 157 50) = bytesOf "3.14" ∧
    FORMAT_FUNCS_float 5 = bytesOf "5" ∧
    (∀ z : Int, format_row [.cInt z] = [formatD z]) ∧
    (∀ q : Rat, format_row [.cFloat q] = [formatF q]) :=
  ⟨by decide, by decide, by decide, fun _ => rfl, fun _ => rfl⟩

/-! ## Claim C2 (Type Guesser fallback) -/

/-- C2 counterexample: the Blob cast never succeeds (Python 2
`bytes(s, encoding)` raises `TypeError`), the Text cast fails on bytes
that are not valid UTF-8, and consequently `guess_type` does reach its
final error branch, e.g. on the sample containing the single byte 255. -/
theorem c2_counterexample :
    guess_type [[255]] = .error [[255]] ∧
    castOk blob_cast (bytesOf "x") = false ∧
    castOk text_cast [255] = false :=
  ⟨rfl, by decide, by decide⟩

/-- C2 (amended): the Text cast succeeds exactly on values that decode
under the configured encoding, so on any sample whose values all
decode, `guess_type` returns a candidate and never reaches its final
error branch; the Blob cast, however, always fails under Python 2, so
exhaustion is reachable for samples holding an undecodable value. -/
theorem c2_guess_type_decodable_total :
    ∀ exampleData : List (List Nat), (∀ v ∈ exampleData, utf8Valid v = true) →
      ∃ ft, guess_type exampleData = .ok ft := by
  intro data h
  have htext : data.all (fun v => castOk text_cast v) = true := by
    rw [List.all_eq_true]
    intro v hv
    simp [castOk, text_cast, h v hv]
  unfold guess_type CAST_FUNCS
  by_cases h1 : data.all (fun v => castOk int_cast v) = true
  · exact ⟨(int_cast, "INTEGER"), by simp [guess_type_over, h1]⟩
  · by_cases h2 : data.all (fun v => castOk float_cast v) = true
    · exact ⟨(float_cast, "FLOAT"), by simp [guess_type_over, h1, h2]⟩
    · exact ⟨(text_cast, "TEXT"), by simp [guess_type_over, h1, h2, htext]⟩

/-- C2 witness: a concrete decodable sample (ASCII and a three-byte
UTF-8 sequence) on which the guesser returns a candidate. -/
theorem c2_witness :
    (∀ v ∈ [bytesOf "hi", [226, 130, 172]], utf8Valid v = true) ∧
    ∃ ft, guess_type [bytesOf "hi", [226, 130, 172]] = .ok ft :=
  ⟨by decide, c2_guess_type_decodable_total [bytesOf "hi", [226, 130, 172]] (by decide)⟩

/-! ## Claim C3 (Type Guesser priority order) -/

theorem guess_type_over_first (cfs : List (CastFn × String)) :
    ∀ (exampleData : List (List Nat)) (i : Nat) (h : i < cfs.length),
      (∀ v ∈ exampleData, castOk (cfs.get ⟨i, h⟩).1 v = true) →
      (∀ j (hj : j < i), ∃ v, v ∈ exampleData ∧ castOk (cfs.get ⟨j, Nat.lt_trans hj h⟩).1 v = false) →
      guess_type_over cfs exampleData = .ok (cfs.get ⟨i, h⟩) := by
  induction cfs with
  | nil => intro data i h; exact absurd h (by simp)
  | cons ft rest ih =>
    intro data i h hall hmin
    cases i with
    | zero =>
      have hok : data.all (fun v => castOk ft.1 v) = true :=
        List.all_eq_true.mpr (by simpa using hall)
      simp [guess_type_over, hok]
    | succ i =>
      have h0 : ∃ v, v ∈ data ∧ castOk ft.1 v = false := by
        simpa using hmin 0 (Nat.succ_pos i)
      have hnot : ¬ data.all (fun v => castOk ft.1 v) = true := by
        intro hc
        obtain ⟨v, hv, hf⟩ := h0
        have := List.all_eq_true.mp hc v hv
        rw [this] at hf
        cases hf
      have hlt : i < rest.length := Nat.lt_of_succ_lt_succ h
      have := ih data i hlt (by simpa using hall)
        (fun j hj => by simpa using hmin (j + 1) (Nat.succ_lt_succ hj))
      simpa [guess_type_over, hnot] using this

/-- C3: for every non-empty sample, the Type Guesser returns the first
candidate in the order Integer, Float, Text, Blob whose cast succeeds
on every value of the sample; in particular the sample 1,2,3 yields
INTEGER, the sample 1.5,2 yields FLOAT, and the sample 1,x yields
TEXT. -/
theorem c3_guess_type_priority :
    (∀ (exampleData : List (List Nat)), exampleData ≠ [] →
      ∀ (i : Nat) (h : i < CAST_FUNCS.length),
        (∀ v ∈ exampleData, castOk (CAST_FUNCS.get ⟨i, h⟩).1 v = true) →
        (∀ j (hj : j < i), ∃ v, v ∈ exampleData ∧
            castOk (CAST_FUNCS.get ⟨j, Nat.lt_trans hj h⟩).1 v = false) →
        guess_type exampleData = .ok (CAST_FUNCS.get ⟨i, h⟩)) ∧
    (guess_type [bytesOf "1", bytesOf "2", bytesOf "3"]).toOption.map (·.2) = some "INTEGER" ∧
    (guess_type [bytesOf "1.5", bytesOf "2"]).toOption.map (·.2) = some "FLOAT" ∧
    (guess_type [bytesOf "1", bytesOf "x"]).toOption.map (·.2) = some "TEXT" :=
  ⟨fun data _ i h hall hmin => guess_type_over_first CAST_FUNCS data i h hall hmin,
   by decide, by decide, by decide⟩

/-- C3 witness: the general statement applied to the concrete sample
1.5, 2 at index 1 (FLOAT), discharging every hypothesis there. -/
theorem c3_witness :
    guess_type [bytesOf "1.5", bytesOf "2"] = .ok (CAST_FUNCS.get ⟨1, by decide⟩) := by
  have h : (1 : Nat) < CAST_FUNCS.length := by decide
  have hall : ∀ v ∈ [bytesOf "1.5", bytesOf "2"], castOk float_cast v = true := by decide
  have hmin : ∀ j (hj : j < 1), ∃ v, v ∈ [bytesOf "1.5", bytesOf "2"] ∧
      castOk (CAST_FUNCS.get ⟨j, Nat.lt_trans hj h⟩).1 v = false := by
    intro j hj
    have hj0 : j = 0 := by omega
    subst hj0
    refine ⟨bytesOf "1.5", by decide, ?_⟩
    show castOk int_cast (bytesOf "1.5") = false
    decide
  exact c3_guess_type_priority.1 [bytesOf "1.5", bytesOf "2"] (by decide) 1 h hall hmin

/-! ## Claim C9 (empty sample yields INTEGER) -/

theorem infer_cols_nil_rows :
    ∀ (pad : Bool) (cs : List Nat),
      infer_cols pad [] cs = .ok (cs.map (fun _ => (int_cast, "INTEGER"))) := by
  intro pad cs
  induction cs with
  | nil => rfl
  | cons c cs ih =>
    have hex : example_data_for pad [] c = .ok [] := by
      cases pad <;> rfl
    simp [infer_cols, hex, ih]
    rfl

theorem range_map_pair_zip (names : List (List Nat)) :
    names.zip (((List.range names.length).map (fun _ => (int_cast, "INTEGER"))).map (·.2))
      = names.map (fun nm => (nm, "INTEGER")) := by
  have h1 : ((List.range names.length).map (fun (_ : Nat) => (int_cast, "INTEGER"))).map (·.2)
      = List.replicate names.length "INTEGER" := by
    rw [List.map_map]
    show (List.range names.length).map (fun _ => "INTEGER") = _
    rw [map_const_replicate, List.length_range]
  rw [h1, zip_self_replicate]

/-- C9: on the empty sample every cast vacuously succeeds, so the Type
Guesser returns the first candidate, INTEGER; consequently loading a
CSV file holding only a header row succeeds and declares every column
as INTEGER, with no rows inserted. -/
theorem c9_empty_sample_integer :
    guess_type [] = .ok (int_cast, "INTEGER") ∧
    ∀ (n : Nat) (pad : Bool) (hdr : List (List Nat)),
      create_table n pad hdr [] =
        .ok ((rename_duplicates (hdr.map pyStrip)).map (fun nm => (nm, "INTEGER")), []) := by
  refine ⟨rfl, ?_⟩
  intro n pad hdr
  simp only [create_table, List.take_nil, List.drop_nil, List.append_nil,
    infer_cols_nil_rows, insert_all]
  rw [range_map_pair_zip]

/-! ## Claim C10 (blank numeric strings parse to null) -/

/-- C10: every string that `stripped_string` maps to the empty string
(strip percent, dollar, question bytes at both ends, then delete every
comma) parses to the null value under both the Integer and the Float
cast, rather than failing; hence a sample made only of such strings is
guessed as INTEGER, and such cells insert as null under either numeric
type. -/
theorem c10_blank_numeric_null :
    (∀ s : List Nat, stripped_string s = [] →
      int_cast s = .ok .vNone ∧ float_cast s = .ok .vNone) ∧
    (∀ exampleData : List (List Nat), (∀ v ∈ exampleData, stripped_string v = []) →
      guess_type exampleData = .ok (int_cast, "INTEGER")) := by
  constructor
  · intro s h
    constructor
    · simp [int_cast, h]
    · simp [float_cast, h]
  · intro data h
    have hall : data.all (fun v => castOk int_cast v) = true := by
      rw [List.all_eq_true]
      intro v hv
      simp [castOk, int_cast, h v hv]
    simp [guess_type, CAST_FUNCS, guess_type_over, hall]

/-- C10 witness: the dollar sign, the double comma and the empty string
all map to null under both numeric casts, and a sample of them is
guessed INTEGER. -/
theorem c10_witness :
    (int_cast (bytesOf "$") = .ok .vNone ∧ float_cast (bytesOf "$") = .ok .vNone) ∧
    (int_cast (bytesOf ",,") = .ok .vNone ∧ float_cast (bytesOf ",,") = .ok .vNone) ∧
    guess_type [bytesOf "$", bytesOf ",,", []] = .ok (int_cast, "INTEGER") :=
  ⟨c10_blank_numeric_null.1 (bytesOf "$") (by decide),
   c10_blank_numeric_null.1 (bytesOf ",,") (by decide),
   c10_blank_numeric_null.2 [bytesOf "$", bytesOf ",,", []] (by decide)⟩

/-! ## Name-assignment lemmas (for C5 and C6) -/

theorem mem_le_maxNameLen {prior : List (List Nat)} {x : List Nat} (h : x ∈ prior) :
    x.length ≤ maxNameLen prior := by
  induction prior with
  | nil => cases h
  | cons a t ih =>
    rcases List.mem_cons.mp h with rfl | hm
    · exact le_max_left _ _
    · exact le_trans (ih hm) (le_max_right _ _)

theorem natToBytesAux_len_lb :
    ∀ (k n fuel : Nat), 10 ^ k ≤ n → n ≤ fuel → k + 1 ≤ (natToBytesAux fuel n).length := by
  intro k
  induction k with
  | zero =>
    intro n fuel hk hf
    have h1 : (1:Nat) ≤ n := by simpa using hk
    have hn : n ≠ 0 := by omega
    have hfuel : 0 < fuel := by omega
    obtain ⟨f, rfl⟩ := Nat.exists_eq_succ_of_ne_zero (by omega : fuel ≠ 0)
    simp [natToBytesAux, hn]
  | succ k ih =>
    intro n fuel hk hf
    have h10 : (10 : Nat) ^ (k + 1) = 10 ^ k * 10 := by ring
    have hn10 : 10 ≤ n := le_trans (by calc (10 : Nat) = 1 * 10 := by ring
                                          _ ≤ 10 ^ k * 10 := by
                                            have := Nat.one_le_two_pow (n := k)
                                            exact Nat.mul_le_mul_right 10 (Nat.one_le_pow k 10 (by norm_num))
                                          _ = 10 ^ (k + 1) := h10.symm) hk
    have hn : n ≠ 0 := by omega
    obtain ⟨f, rfl⟩ := Nat.exists_eq_succ_of_ne_zero (by omega : fuel ≠ 0)
    have hdiv : 10 ^ k ≤ n / 10 := by
      rw [Nat.le_div_iff_mul_le (by norm_num : (0:Nat) < 10)]
      omega
    have hlt : n / 10 < n := Nat.div_lt_self (by omega) (by norm_num)
    have hfle : n / 10 ≤ f := by omega
    have := ih (n / 10) f hdiv hfle
    simp [natToBytesAux, hn]
    omega

theorem numBytes_len_lb (k n : Nat) (h : 10 ^ k ≤ n) : k + 1 ≤ (numBytes n).length := by
  have hn : n ≠ 0 := by
    have : (0:Nat) < 10 ^ k := Nat.pos_pow_of_pos k (by norm_num)
    omega
  unfold numBytes
  rw [if_neg hn, List.length_reverse]
  exact natToBytesAux_len_lb k n n h (le_refl n)

theorem loopCand_shift (orig current : List Nat) (n : Nat) :
    ∀ k, loopCand orig (orig ++ numBytes n) (n + 1) k = loopCand orig current n (k + 1) := by
  intro k
  cases k with
  | zero => simp [loopCand]
  | succ j =>
    show orig ++ numBytes (n + 1 + j) = orig ++ numBytes (n + (j + 1))
    exact congrArg (orig ++ numBytes ·) (by omega)

theorem pick_loop_first_free (orig : List Nat) (prior : List (List Nat)) :
    ∀ (fuel n : Nat) (current : List Nat),
      (∃ k, k ≤ fuel ∧ loopCand orig current n k ∉ prior) →
      ∃ k, k ≤ fuel ∧ pick_loop orig prior fuel n current = loopCand orig current n k ∧
        loopCand orig current n k ∉ prior ∧
        ∀ j, j < k → loopCand orig current n j ∈ prior := by
  intro fuel
  induction fuel with
  | zero =>
    intro n current ⟨k, hk, hfree⟩
    have hk0 : k = 0 := by omega
    subst hk0
    exact ⟨0, le_refl _, rfl, hfree, fun j hj => absurd hj (by omega)⟩
  | succ f ih =>
    intro n current hex
    by_cases hc : current ∈ prior
    · obtain ⟨k, hk, hfree⟩ := hex
      have hk0 : k ≠ 0 := by
        intro h0
        subst h0
        exact hfree hc
      obtain ⟨k1, rfl⟩ := Nat.exists_eq_succ_of_ne_zero hk0
      have hex2 : ∃ k2, k2 ≤ f ∧ loopCand orig (orig ++ numBytes n) (n + 1) k2 ∉ prior :=
        ⟨k1, by omega, by rw [loopCand_shift orig current n k1]; exact hfree⟩
      obtain ⟨k2, hk2, heq, hfree2, hmin2⟩ := ih (n + 1) (orig ++ numBytes n) hex2
      refine ⟨k2 + 1, by omega, ?_, ?_, ?_⟩
      · show pick_loop orig prior (f + 1) n current = _
        rw [pick_loop, if_pos hc, heq, loopCand_shift orig current n k2]
      · rw [← loopCand_shift orig current n k2]
        exact hfree2
      · intro j hj
        cases j with
        | zero => exact hc
        | succ j1 =>
          rw [← loopCand_shift orig current n j1]
          exact hmin2 j1 (by omega)
    · exact ⟨0, Nat.zero_le _, by rw [pick_loop, if_neg hc]; rfl, hc, fun j hj => absurd hj (by omega)⟩

theorem exists_free_cand (orig : List Nat) (prior : List (List Nat)) :
    ∃ k, k ≤ pickFuel prior ∧ loopCand orig orig 2 k ∉ prior := by
  have hF1 : 1 ≤ pickFuel prior := Nat.one_le_pow _ 10 (by norm_num)
  refine ⟨pickFuel prior, le_refl _, ?_⟩
  intro hmem
  have hcand : loopCand orig orig 2 (pickFuel prior) = orig ++ numBytes (pickFuel prior + 1) := by
    have h1 : pickFuel prior = (pickFuel prior - 1) + 1 := by omega
    rw [h1]
    show orig ++ numBytes (2 + (pickFuel prior - 1)) = orig ++ numBytes ((pickFuel prior - 1) + 1 + 1)
    exact congrArg (orig ++ numBytes ·) (by omega)
  rw [hcand] at hmem
  have hlen : (maxNameLen prior + 1) + 1 ≤ (numBytes (pickFuel prior + 1)).length := by
    apply numBytes_len_lb
    unfold pickFuel
    omega
  have hle := mem_le_maxNameLen hmem
  rw [List.length_append] at hle
  omega

theorem first_free_name_spec (orig : List Nat) (prior : List (List Nat)) :
    ∃ k, first_free_name orig prior = loopCand orig orig 2 k ∧
      loopCand orig orig 2 k ∉ prior ∧
      ∀ j, j < k → loopCand orig orig 2 j ∈ prior := by
  obtain ⟨k, _, heq, hfree, hmin⟩ :=
    pick_loop_first_free orig prior (pickFuel prior) 2 orig (exists_free_cand orig prior)
  exact ⟨k, heq, hfree, hmin⟩

theorem first_free_name_not_mem (orig : List Nat) (prior : List (List Nat)) :
    first_free_name orig prior ∉ prior := by
  obtain ⟨k, heq, hfree, _⟩ := first_free_name_spec orig prior
  rw [heq]
  exact hfree

theorem first_free_name_keep {orig : List Nat} {prior : List (List Nat)} (h : orig ∉ prior) :
    first_free_name orig prior = orig := by
  obtain ⟨k, heq, hfree, hmin⟩ := first_free_name_spec orig prior
  cases k with
  | zero => exact heq
  | succ k1 => exact absurd (hmin 0 (Nat.succ_pos k1)) h

theorem first_free_name_rename {orig : List Nat} {prior : List (List Nat)} (h : orig ∈ prior) :
    ∃ nn, 2 ≤ nn ∧ first_free_name orig prior = orig ++ numBytes nn ∧
      orig ++ numBytes nn ∉ prior ∧
      ∀ m, 2 ≤ m → m < nn → orig ++ numBytes m ∈ prior := by
  obtain ⟨k, heq, hfree, hmin⟩ := first_free_name_spec orig prior
  cases k with
  | zero => exact absurd h hfree
  | succ k1 =>
    refine ⟨2 + k1, by omega, ?_, ?_, ?_⟩
    · rw [heq]; rfl
    · exact hfree
    · intro m h2 hmn
      have hj : m - 1 < k1 + 1 := by omega
      have := hmin (m - 1) hj
      have hrw : loopCand orig orig 2 (m - 1) = orig ++ numBytes m := by
        have h1 : m - 1 = (m - 2) + 1 := by omega
        rw [h1]
        show orig ++ numBytes (2 + (m - 2)) = orig ++ numBytes m
        exact congrArg (orig ++ numBytes ·) (by omega)
      rw [hrw] at this
      exact this

theorem take_append_self {α : Type} : ∀ (l₁ l₂ : List α), (l₁ ++ l₂).take l₁.length = l₁ := by
  intro l₁
  induction l₁ with
  | nil => intro l₂; rfl
  | cons a t ih => intro l₂; simp [List.take, ih]

theorem getD_default_irrel {α : Type} (d₁ d₂ : α) :
    ∀ (l : List α) (i : Nat), i < l.length → l.getD i d₁ = l.getD i d₂ := by
  intro l
  induction l with
  | nil => intro i h; cases h
  | cons a t ih =>
    intro i h
    cases i with
    | zero => rfl
    | succ i => exact ih i (by simpa using h)

theorem dedup_go_append :
    ∀ (rest done : List (List Nat)), ∃ suf, dedup_names_go done rest = done ++ suf := by
  intro rest
  induction rest with
  | nil => intro done; exact ⟨[], by simp [dedup_names_go]⟩
  | cons o t ih =>
    intro done
    obtain ⟨s, hs⟩ := ih (done ++ [first_free_name o done])
    exact ⟨[first_free_name o done] ++ s, by
      show dedup_names_go (done ++ [first_free_name o done]) t = _
      rw [hs, List.append_assoc]⟩

theorem dedup_go_length :
    ∀ (rest done : List (List Nat)), (dedup_names_go done rest).length = done.length + rest.length := by
  intro rest
  induction rest with
  | nil => intro done; simp [dedup_names_go]
  | cons o t ih =>
    intro done
    show (dedup_names_go (done ++ [first_free_name o done]) t).length = _
    rw [ih]
    simp
    omega

theorem dedup_go_take :
    ∀ (rest done : List (List Nat)), (dedup_names_go done rest).take done.length = done := by
  intro rest done
  obtain ⟨suf, hs⟩ := dedup_go_append rest done
  rw [hs, take_append_self]

theorem dedup_go_getD :
    ∀ (rest done : List (List Nat)) (i : Nat), i < rest.length →
      (dedup_names_go done rest).getD (done.length + i) [] =
        first_free_name (rest.getD i []) ((dedup_names_go done rest).take (done.length + i)) := by
  intro rest
  induction rest with
  | nil => intro done i h; cases h
  | cons o t ih =>
    intro done i h
    cases i with
    | zero =>
      have hgo : dedup_names_go done (o :: t) = dedup_names_go (done ++ [first_free_name o done]) t := rfl
      obtain ⟨suf, hsuf⟩ := dedup_go_append t (done ++ [first_free_name o done])
      rw [Nat.add_zero]
      rw [hgo, hsuf, List.append_assoc]
      rw [getD_append_ge _ done ([first_free_name o done] ++ suf) done.length (le_refl _)]
      rw [Nat.sub_self]
      rw [take_append_self]
      rfl
    | succ i =>
      have hgo : dedup_names_go done (o :: t) = dedup_names_go (done ++ [first_free_name o done]) t := rfl
      have hlen : done.length + (i + 1) = (done ++ [first_free_name o done]).length + i := by
        simp
        omega
      rw [hgo, hlen, ih (done ++ [first_free_name o done]) i (by simpa using h)]
      rfl

theorem dedup_go_nodup :
    ∀ (rest done : List (List Nat)), done.Nodup → (dedup_names_go done rest).Nodup := by
  intro rest
  induction rest with
  | nil => intro done h; exact h
  | cons o t ih =>
    intro done h
    show (dedup_names_go (done ++ [first_free_name o done]) t).Nodup
    apply ih
    rw [List.nodup_append]
    refine ⟨h, List.nodup_singleton _, ?_⟩
    intro a ha hb
    rw [List.mem_singleton] at hb
    subst hb
    exact first_free_name_not_mem o done ha

theorem rename_duplicates_length (header : List (List Nat)) :
    (rename_duplicates header).length = header.length := by
  show (dedup_names_go [] header).length = _
  rw [dedup_go_length]
  simp

theorem rename_duplicates_getD (header : List (List Nat)) (i : Nat) (h : i < header.length) :
    (rename_duplicates header).getD i [] =
      first_free_name (header.getD i []) ((rename_duplicates header).take i) := by
  have := dedup_go_getD header [] i h
  simpa using this

theorem rename_duplicates_nodup (header : List (List Nat)) :
    (rename_duplicates header).Nodup :=
  dedup_go_nodup header [] List.nodup_nil

/-! ## Claim C5 (Column Namer) -/

/-- C5: for every list of raw header strings, `rename_duplicates`
returns a list of the same length that is element-wise unique; each
position, left to right, keeps its original name when that name did not
occur among the prior finalized names, and otherwise receives the
original name suffixed with the smallest integer, at least 2 and
checked in increasing order, that does not occur among the prior
finalized names; the list a, b, a maps to a, b, a2. -/
theorem c5_rename_duplicates_spec :
    (∀ header : List (List Nat),
      (rename_duplicates header).length = header.length ∧
      (rename_duplicates header).Nodup ∧
      (∀ i, i < header.length →
        (header.getD i [] ∉ (rename_duplicates header).take i →
          (rename_duplicates header).getD i [] = header.getD i []) ∧
        (header.getD i [] ∈ (rename_duplicates header).take i →
          ∃ nn, 2 ≤ nn ∧
            (rename_duplicates header).getD i [] = header.getD i [] ++ numBytes nn ∧
            header.getD i [] ++ numBytes nn ∉ (rename_duplicates header).take i ∧
            ∀ m, 2 ≤ m → m < nn →
              header.getD i [] ++ numBytes m ∈ (rename_duplicates header).take i))) ∧
    rename_duplicates [bytesOf "a", bytesOf "b", bytesOf "a"]
      = [bytesOf "a", bytesOf "b", bytesOf "a2"] := by
  constructor
  · intro header
    refine ⟨rename_duplicates_length header, rename_duplicates_nodup header, ?_⟩
    intro i h
    rw [rename_duplicates_getD header i h]
    exact ⟨fun hnot => first_free_name_keep hnot, fun hmem => first_free_name_rename hmem⟩
  · decide

/-- C5 witness: the positional rule applied to the concrete header
a, b, a at position 2, whose name occurs among the prior finalized
names and is renamed with suffix 2. -/
theorem c5_witness :
    bytesOf "a" ∈ (rename_duplicates [bytesOf "a", bytesOf "b", bytesOf "a"]).take 2 ∧
    ∃ nn, 2 ≤ nn ∧
      (rename_duplicates [bytesOf "a", bytesOf "b", bytesOf "a"]).getD 2 []
        = bytesOf "a" ++ numBytes nn ∧
      bytesOf "a" ++ numBytes nn ∉ (rename_duplicates [bytesOf "a", bytesOf "b", bytesOf "a"]).take 2 ∧
      ∀ m, 2 ≤ m → m < nn →
        bytesOf "a" ++ numBytes m ∈ (rename_duplicates [bytesOf "a", bytesOf "b", bytesOf "a"]).take 2 := by
  refine ⟨by decide, ?_⟩
  exact ((c5_rename_duplicates_spec.1 [bytesOf "a", bytesOf "b", bytesOf "a"]).2.2 2
    (by decide)).2 (by decide)

/-! ## Claim C6 (table naming) -/

theorem choose_table_names_length (files : List (List Nat)) (mode : Bool) :
    (choose_table_names files mode).length = files.length := by
  show (dedup_names_go [] (files.map (table_base_name mode))).length = _
  rw [dedup_go_length]
  simp

theorem choose_table_names_getD (files : List (List Nat)) (mode : Bool) (i : Nat)
    (h : i < files.length) :
    (choose_table_names files mode).getD i [] =
      first_free_name (table_base_name mode (files.getD i []))
        ((choose_table_names files mode).take i) := by
  have hm : i < (files.map (table_base_name mode)).length := by simpa using h
  have := dedup_go_getD (files.map (table_base_name mode)) [] i hm
  simp only [List.length_nil, Nat.zero_add] at this
  show (dedup_names_go [] (files.map (table_base_name mode))).getD i [] = _
  rw [this]
  congr 1
  rw [getD_default_irrel [] (table_base_name mode []) (files.map (table_base_name mode)) i hm]
  exact getD_map_index (table_base_name mode) [] files i h

theorem choose_table_names_nodup (files : List (List Nat)) (mode : Bool) :
    (choose_table_names files mode).Nodup :=
  dedup_go_nodup (files.map (table_base_name mode)) [] List.nodup_nil

/-- C6: `choose_table_names` assigns names left to right; the base name
of a file is its file name without extension in by-filename mode and
the literal csv in generic mode; a base name already assigned gets the
smallest integer suffix, at least 2 and checked in increasing order,
that is unused among the names assigned so far.  Over foo.csv, bar.csv
(by filename) it yields foo, bar; over two files both named foobar.csv
it yields foobar, foobar2; in generic mode over two files it yields
csv, csv2. -/
theorem c6_choose_table_names_spec :
    (∀ (files : List (List Nat)) (mode : Bool),
      (choose_table_names files mode).length = files.length ∧
      (choose_table_names files mode).Nodup ∧
      (∀ i, i < files.length →
        (table_base_name mode (files.getD i []) ∉ (choose_table_names files mode).take i →
          (choose_table_names files mode).getD i [] = table_base_name mode (files.getD i [])) ∧
        (table_base_name mode (files.getD i []) ∈ (choose_table_names files mode).take i →
          ∃ nn, 2 ≤ nn ∧
            (choose_table_names files mode).getD i []
              = table_base_name mode (files.getD i []) ++ numBytes nn ∧
            table_base_name mode (files.getD i []) ++ numBytes nn
              ∉ (choose_table_names files mode).take i ∧
            ∀ m, 2 ≤ m → m < nn →
              table_base_name mode (files.getD i []) ++ numBytes m
                ∈ (choose_table_names files mode).take i))) ∧
    choose_table_names [bytesOf "/some/path/foo.csv", bytesOf "/another/path/bar.csv"] true
      = [bytesOf "foo", bytesOf "bar"] ∧
    choose_table_names [bytesOf "/some/path/foobar.csv", bytesOf "/another/path/foobar.csv"] true
      = [bytesOf "foobar", bytesOf "foobar2"] ∧
    choose_table_names [bytesOf "/some/path/foo.csv", bytesOf "/another/path/bar.csv"] false
      = [bytesOf "csv", bytesOf "csv2"] := by
  refine ⟨?_, by decide, by decide, by decide⟩
  intro files mode
  refine ⟨choose_table_names_length files mode, choose_table_names_nodup files mode, ?_⟩
  intro i h
  rw [choose_table_names_getD files mode i h]
  exact ⟨fun hnot => first_free_name_keep hnot, fun hmem => first_free_name_rename hmem⟩

/-- C6 witness: the positional rule applied to the second of two files
both named foobar.csv, whose base name is already assigned and receives
the suffix 2. -/
theorem c6_witness :
    table_base_name true (bytesOf "/another/path/foobar.csv")
      ∈ (choose_table_names
          [bytesOf "/some/path/foobar.csv", bytesOf "/another/path/foobar.csv"] true).take 1 ∧
    ∃ nn, 2 ≤ nn ∧
      (choose_table_names
          [bytesOf "/some/path/foobar.csv", bytesOf "/another/path/foobar.csv"] true).getD 1 []
        = table_base_name true (bytesOf "/another/path/foobar.csv") ++ numBytes nn ∧
      table_base_name true (bytesOf "/another/path/foobar.csv") ++ numBytes nn
        ∉ (choose_table_names
            [bytesOf "/some/path/foobar.csv", bytesOf "/another/path/foobar.csv"] true).take 1 ∧
      ∀ m, 2 ≤ m → m < nn →
        table_base_name true (bytesOf "/another/path/foobar.csv") ++ numBytes m
          ∈ (choose_table_names
              [bytesOf "/some/path/foobar.csv", bytesOf "/another/path/foobar.csv"] true).take 1 := by
  refine ⟨by decide, ?_⟩
  exact ((c6_choose_table_names_spec.1
      [bytesOf "/some/path/foobar.csv", bytesOf "/another/path/foobar.csv"] true).2.2 1
    (by decide)).2 (by decide)

/-! ## Claim C7 (pad mode) -/

theorem pad_cell_strip (L : Nat) (row : List (List Nat)) (col : Nat) (h : col < L) :
    pyStrip ((padded_row L row).getD col []) = example_cell row col := by
  by_cases hc : col < row.length
  · unfold padded_row
    rw [getD_append_lt [] row _ col hc]
    unfold example_cell
    rw [if_pos hc]
  · unfold padded_row
    rw [getD_append_ge [] row _ col (by omega)]
    rw [getD_replicate_lt [] ROW_PADDING_STRING (L - row.length) (col - row.length) (by omega)]
    unfold example_cell
    rw [if_neg hc]
    rfl

/-- C7: in pad mode, a data row shorter than the header of length L is
extended with the empty-string padding value for its missing trailing
cells, so a row holding one cell v under a header of length 3 becomes
v, empty, empty; and the padding is applied identically during
sampling and during insertion: for every column index below L, the
stripped cell of the padded row used at insert time equals the sample
cell used at inference time. -/
theorem c7_pad_mode_padding :
    (∀ (L : Nat) (row : List (List Nat)), row.length ≤ L →
      (padded_row L row).length = L ∧
      padded_row L row = row ++ List.replicate (L - row.length) ROW_PADDING_STRING) ∧
    (∀ (L : Nat) (row : List (List Nat)) (col : Nat), col < L →
      pyStrip ((padded_row L row).getD col []) = example_cell row col) ∧
    (∀ v : List Nat, padded_row 3 [v] = [v, ROW_PADDING_STRING, ROW_PADDING_STRING]) := by
  refine ⟨?_, pad_cell_strip, ?_⟩
  · intro L row h
    constructor
    · unfold padded_row
      rw [List.length_append, List.length_replicate]
      omega
    · rfl
  · intro v
    rfl

/-- C7 witness: the padding facts applied to a one-cell row under a
header of length 3, at column index 1. -/
theorem c7_witness :
    (padded_row 3 [[118]]).length = 3 ∧
    pyStrip ((padded_row 3 [[118]]).getD 1 []) = example_cell [[118]] 1 ∧
    padded_row 3 [[118]] = [[118], ROW_PADDING_STRING, ROW_PADDING_STRING] :=
  ⟨(c7_pad_mode_padding.1 3 [[118]] (by decide)).1,
   c7_pad_mode_padding.2.1 3 [[118]] 1 (by decide),
   c7_pad_mode_padding.2.2 [118]⟩

/-! ## Claim C4 (strict mode) -/

theorem insert_row_strict_len {L : Nat} {casts : List CastFn} {row : List (List Nat)}
    {tr : List PyVal} (h : insert_row false L casts row = .ok tr) : row.length = L := by
  by_cases hl : row.length = L
  · exact hl
  · exfalso
    simp [insert_row, hl] at h

theorem insert_all_strict_ok (L : Nat) (casts : List CastFn) :
    ∀ (rws : List (List (List Nat))) (t : List (List PyVal)),
      insert_all false L casts rws = .ok t → ∀ row ∈ rws, row.length = L := by
  intro rws
  induction rws with
  | nil => intro t _ row hrow; cases hrow
  | cons r rest ih =>
    intro t h row hrow
    simp only [insert_all] at h
    cases hir : insert_row false L casts r with
    | error e => rw [hir] at h; cases h
    | ok tr =>
      rw [hir] at h
      cases hia : insert_all false L casts rest with
      | error e => rw [hia] at h; cases h
      | ok trs =>
        rcases List.mem_cons.mp hrow with rfl | hm
        · exact insert_row_strict_len hir
        · exact ih trs hia row hm

/-- C4 counterexample: in strict mode a sampled row longer than the
header does not always fail the load with the row-length error: with
header a and the single sampled row holding the two cells 0xFF and x,
type guessing exhausts its candidates on the undecodable first column
first, so the load fails with NoMatchingType instead of
RowLengthMismatch. -/
theorem c4_counterexample :
    create_table GUESS_TYPE_FROM_N_ROWS false [[97]] [[[255], [120]]]
      = .error (.noMatchingType [[255]]) ∧
    LoadError.noMatchingType [[255]] ≠ LoadError.rowLengthMismatch ∧
    ([[255], [120]] : List (List Nat)).length ≠ ([[97]] : List (List Nat)).length :=
  ⟨rfl, by decide, by decide⟩

/-- C4 (amended): in strict mode, for every header of length L, a load
that succeeds processed only rows of length exactly L, so any data row
(sampled or not, shorter or longer) whose length differs from L makes
the load fail; the error is RowLengthMismatch unless an earlier stage
fails first, as in the counterexample where type guessing exhausts on
an undecodable sampled value. -/
theorem c4_strict_mode_row_length :
    ∀ (n : Nat) (hdr : List (List Nat)) (rows : List (List (List Nat)))
      (r : List ((List Nat) × String) × List (List PyVal)),
      create_table n false hdr rows = .ok r →
      ∀ row ∈ rows, row.length = hdr.length := by
  intro n hdr rows r h row hrow
  simp only [create_table] at h
  split at h
  · cases h
  · split at h
    · cases h
    · rename_i fts hinf typed hins
      have hmem : row ∈ rows.take n ++ rows.drop n := by
        rw [List.take_append_drop n rows]
        exact hrow
      have hlen := insert_all_strict_ok _ _ _ _ hins row hmem
      rw [hlen, rename_duplicates_length, List.length_map]

/-- C4 witness: a successful strict-mode load whose single data row
therefore has the header length. -/
theorem c4_witness :
    ([bytesOf "1", bytesOf "2"] : List (List Nat)).length
      = ([bytesOf "a", bytesOf "b"] : List (List Nat)).length := by
  have h : create_table 10 false [bytesOf "a", bytesOf "b"] [[bytesOf "1", bytesOf "2"]]
      = .ok ([(bytesOf "a", "INTEGER"), (bytesOf "b", "INTEGER")], [[.vInt 1, .vInt 2]]) := by rfl
  exact c4_strict_mode_row_length 10 [bytesOf "a", bytesOf "b"] [[bytesOf "1", bytesOf "2"]] _ h
    [bytesOf "1", bytesOf "2"] (by decide)

/-! ## Claim C8 (TypeConversionFailure) -/

theorem take_all_le {α : Type} : ∀ (l : List α) (n : Nat), l.length ≤ n → l.take n = l := by
  intro l
  induction l with
  | nil => intro n _; exact List.take_nil
  | cons a t ih =>
    intro n h
    cases n with
    | zero => simp at h
    | succ n => simp [List.take, ih n (by simpa using h)]

theorem drop_all_le {α : Type} : ∀ (l : List α) (n : Nat), l.length ≤ n → l.drop n = [] := by
  intro l
  induction l with
  | nil => intro n _; exact List.drop_nil
  | cons a t ih =>
    intro n h
    cases n with
    | zero => simp at h
    | succ n => simpa [List.drop] using ih n (by simpa using h)

theorem guess_over_certifies :
    ∀ (cfs : List (CastFn × String)) (exampleData : List (List Nat)) (ft : CastFn × String),
      guess_type_over cfs exampleData = .ok ft → ∀ v ∈ exampleData, castOk ft.1 v = true := by
  intro cfs
  induction cfs with
  | nil => intro data ft h; cases h
  | cons ft0 rest ih =>
    intro data ft h v hv
    by_cases hall : data.all (fun v => castOk ft0.1 v) = true
    · simp only [guess_type_over, hall, if_true] at h
      cases h
      exact List.all_eq_true.mp hall v hv
    · simp only [guess_type_over, hall, if_false] at h
      exact ih data ft h v hv

theorem guess_over_mem :
    ∀ (cfs : List (CastFn × String)) (exampleData : List (List Nat)) (ft : CastFn × String),
      guess_type_over cfs exampleData = .ok ft → ft ∈ cfs := by
  intro cfs
  induction cfs with
  | nil => intro data ft h; cases h
  | cons ft0 rest ih =>
    intro data ft h
    by_cases hall : data.all (fun v => castOk ft0.1 v) = true
    · simp only [guess_type_over, hall, if_true] at h
      cases h
      exact List.mem_cons_self _ _
    · simp only [guess_type_over, hall, if_false] at h
      exact List.mem_cons_of_mem _ (ih data ft h)

theorem infer_cols_spec (pad : Bool) (rows : List (List (List Nat))) :
    ∀ (cols : List Nat) (fts : List (CastFn × String)),
      infer_cols pad rows cols = .ok fts →
      fts.length = cols.length ∧
      ∀ k, k < cols.length →
        ∃ exData, example_data_for pad rows (cols.getD k 0) = .ok exData ∧
          guess_type exData = .ok (fts.getD k (blob_cast, "BLOB")) := by
  intro cols
  induction cols with
  | nil =>
    intro fts h
    cases h
    exact ⟨rfl, fun k hk => absurd hk (by simp)⟩
  | cons c cs ih =>
    intro fts h
    simp only [infer_cols] at h
    split at h
    · cases h
    · rename_i exData hex
      split at h
      · cases h
      · rename_i ft hg
        split at h
        · cases h
        · rename_i fts0 hrec
          cases h
          obtain ⟨hlen, hspec⟩ := ih fts0 hrec
          refine ⟨by simp [hlen], ?_⟩
          intro k hk
          cases k with
          | zero => exact ⟨exData, hex, hg⟩
          | succ k => exact hspec k (by simpa using hk)

theorem infer_cols_mem_CAST (pad : Bool) (rows : List (List (List Nat))) :
    ∀ (cols : List Nat) (fts : List (CastFn × String)),
      infer_cols pad rows cols = .ok fts → ∀ ft ∈ fts, ft ∈ CAST_FUNCS := by
  intro cols
  induction cols with
  | nil => intro fts h; cases h; intro ft hft; cases hft
  | cons c cs ih =>
    intro fts h
    simp only [infer_cols] at h
    split at h
    · cases h
    · rename_i exData hex
      split at h
      · cases h
      · rename_i ft0 hg
        split at h
        · cases h
        · rename_i fts0 hrec
          cases h
          intro ft hft
          rcases List.mem_cons.mp hft with rfl | hm
          · exact guess_over_mem CAST_FUNCS exData ft hg
          · exact ih fts0 hrec ft hm

theorem infer_cols_err (pad : Bool) (rows : List (List (List Nat))) :
    ∀ (cols : List Nat) (e : LoadError), infer_cols pad rows cols = .error e →
      e = .rowLengthMismatch ∨ ∃ d, e = .noMatchingType d := by
  intro cols
  induction cols with
  | nil => intro e h; cases h
  | cons c cs ih =>
    intro e h
    simp only [infer_cols] at h
    split at h
    · rename_i e0 hex
      cases h
      simp only [example_data_for] at hex
      by_cases hpad : pad = true
      · rw [hpad] at hex; simp at hex
      · have hpad2 : pad = false := by
          cases pad
          · rfl
          · exact absurd rfl hpad
        rw [hpad2] at hex
        simp only [Bool.false_eq_true, if_false] at hex
        by_cases hall : rows.all (fun row => decide (c < row.length)) = true
        · rw [if_pos hall] at hex; cases hex
        · rw [if_neg hall] at hex
          cases hex
          exact Or.inl rfl
    · rename_i exData hex
      split at h
      · rename_i d hg
        cases h
        exact Or.inr ⟨d, rfl⟩
      · rename_i ft hg
        split at h
        · rename_i e0 hrec
          cases h
          exact ih _ hrec
        · cases h

theorem example_data_pad (rows : List (List (List Nat))) (c : Nat) :
    example_data_for true rows c = .ok (rows.map (fun row => example_cell row c)) := rfl

theorem example_data_strict {rows : List (List (List Nat))} {c : Nat} {exData : List (List Nat)}
    (h : example_data_for false rows c = .ok exData) :
    exData = rows.map (fun row => pyStrip (row.getD c [])) ∧ ∀ row ∈ rows, c < row.length := by
  simp only [example_data_for, Bool.false_eq_true, if_false] at h
  by_cases hall : rows.all (fun row => decide (c < row.length)) = true
  · rw [if_pos hall] at h
    cases h
    refine ⟨rfl, ?_⟩
    intro row hrow
    exact of_decide_eq_true (List.all_eq_true.mp hall row hrow)
  · rw [if_neg hall] at h
    cases h

theorem convert_cells_ok_idx :
    ∀ (casts : List CastFn) (cells : List (List Nat)),
      (∀ k, k < casts.length → k < cells.length →
        castOk (casts.getD k blob_cast) (pyStrip (cells.getD k [])) = true) →
      ∃ t, convert_cells (casts.zip cells) = .ok t := by
  intro casts
  induction casts with
  | nil => intro cells _; exact ⟨[], rfl⟩
  | cons f fr ih =>
    intro cells h
    cases cells with
    | nil => exact ⟨[], rfl⟩
    | cons c cr =>
      have h0 : castOk f (pyStrip c) = true := h 0 (by simp) (by simp)
      obtain ⟨w, hw⟩ := castOk_ok h0
      obtain ⟨t, ht⟩ := ih cr (fun k hk1 hk2 => h (k + 1) (by simpa using hk1) (by simpa using hk2))
      refine ⟨w :: t, ?_⟩
      show convert_cells ((f, c) :: fr.zip cr) = _
      simp only [convert_cells, hw, ht]

theorem mem_zip_fst {α β : Type} :
    ∀ (l₁ : List α) (l₂ : List β) (p : α × β), p ∈ l₁.zip l₂ → p.1 ∈ l₁ := by
  intro l₁
  induction l₁ with
  | nil => intro l₂ p h; cases h
  | cons a t ih =>
    intro l₂ p h
    cases l₂ with
    | nil => cases h
    | cons b u =>
      rcases List.mem_cons.mp h with rfl | hm
      · exact List.mem_cons_self _ _
      · exact List.mem_cons_of_mem _ (ih u p hm)

theorem cast_fail_shape :
    ∀ ft ∈ CAST_FUNCS, ∀ (v : List Nat) (e : PyExc), ft.1 v = .error e →
      (∃ w, e = .valueError (INT_ERR ++ pyRepr w)) ∨
      (∃ w, e = .valueError (FLOAT_ERR ++ w)) ∨
      (∃ w, e = .unicodeDecodeError UTF8_NAME w) ∨
      e = .typeError := by
  intro ft hft v e herr
  simp only [CAST_FUNCS, List.mem_cons, List.not_mem_nil, or_false] at hft
  rcases hft with rfl | rfl | rfl | rfl
  · simp only [int_cast] at herr
    split at herr
    · cases herr
    · split at herr
      · cases herr
      · cases herr
        exact Or.inl ⟨stripped_string v, rfl⟩
  · simp only [float_cast] at herr
    split at herr
    · cases herr
    · split at herr
      · cases herr
      · cases herr
        exact Or.inr (Or.inl ⟨stripped_string v, rfl⟩)
  · simp only [text_cast] at herr
    split at herr
    · cases herr
    · cases herr
      exact Or.inr (Or.inr (Or.inl ⟨v, rfl⟩))
  · cases herr
    exact Or.inr (Or.inr (Or.inr rfl))

theorem convert_cells_err_shape :
    ∀ (ps : List (CastFn × List Nat)) (e : PyExc),
      (∀ p ∈ ps, ∃ ft ∈ CAST_FUNCS, p.1 = ft.1) →
      convert_cells ps = .error e →
      (∃ w, e = .valueError (INT_ERR ++ pyRepr w)) ∨
      (∃ w, e = .valueError (FLOAT_ERR ++ w)) ∨
      (∃ w, e = .unicodeDecodeError UTF8_NAME w) ∨
      e = .typeError := by
  intro ps
  induction ps with
  | nil => intro e _ h; cases h
  | cons p rest ih =>
    intro e hsrc h
    obtain ⟨f, v⟩ := p
    simp only [convert_cells] at h
    split at h
    · rename_i e0 hf
      cases h
      obtain ⟨ft, hft, hf1⟩ := hsrc (f, v) (List.mem_cons_self _ _)
      have hf2 : f = ft.1 := hf1
      rw [hf2] at hf
      exact cast_fail_shape ft hft (pyStrip v) _ hf
    · split at h
      · rename_i e0 hrec
        cases h
        exact ih _ (fun p hp => hsrc p (List.mem_cons_of_mem _ hp)) hrec
      · cases h

theorem insert_all_err (pad : Bool) (L : Nat) (casts : List CastFn) :
    ∀ (rws : List (List (List Nat))) (e : LoadError),
      insert_all pad L casts rws = .error e →
      ∃ row ∈ rws, insert_row pad L casts row = .error e := by
  intro rws
  induction rws with
  | nil => intro e h; cases h
  | cons r rest ih =>
    intro e h
    simp only [insert_all] at h
    split at h
    · rename_i e0 hir
      cases h
      exact ⟨r, List.mem_cons_self _ _, hir⟩
    · rename_i tr hir
      split at h
      · rename_i e0 hia
        cases h
        obtain ⟨row, hrow, hi⟩ := ih _ hia
        exact ⟨row, List.mem_cons_of_mem _ hrow, hi⟩
      · cases h

theorem insert_row_convError (pad : Bool) (L : Nat) (casts : List CastFn)
    (row : List (List Nat)) (m : List Nat)
    (h : insert_row pad L casts row = .error (.convError m)) :
    ∃ cells e0, convert_cells (casts.zip cells) = .error e0 ∧ wrap_exc e0 = .convError m := by
  by_cases hpad : pad = true
  · subst hpad
    simp only [insert_row, if_true] at h
    split at h
    · rename_i e0 hconv
      injection h with hw
      exact ⟨padded_row L row, e0, hconv, hw⟩
    · rename_i tr hconv
      split at h
      · cases h
      · cases h
  · have hpad2 : pad = false := by
      cases pad
      · rfl
      · exact absurd rfl hpad
    subst hpad2
    simp only [insert_row, Bool.false_eq_true, if_false] at h
    by_cases hl : row.length = L
    · rw [if_pos hl] at h
      split at h
      · rename_i e0 hconv
        injection h with hw
        exact ⟨row, e0, hconv, hw⟩
      · cases h
    · rw [if_neg hl] at h
      cases h

theorem casts_getD_eq :
    ∀ (fts : List (CastFn × String)) (k : Nat), k < fts.length →
      (fts.map (·.1)).getD k blob_cast = (fts.getD k (blob_cast, "BLOB")).1 := by
  intro fts
  induction fts with
  | nil => intro k h; simp at h
  | cons a t ih =>
    intro k h
    cases k with
    | zero => rfl
    | succ k => exact ih k (by simpa using h)

theorem range_getD (L k : Nat) (h : k < L) : (List.range L).getD k 0 = k := by
  have h2 : k < (List.range L).length := by simpa [List.length_range] using h
  rw [List.getD_eq_getElem _ _ h2]
  simp

theorem window_cast_ok_pad (rows : List (List (List Nat))) (L : Nat)
    (fts : List (CastFn × String)) (hinf : infer_cols true rows (List.range L) = .ok fts)
    (row : List (List Nat)) (hrow : row ∈ rows) (k : Nat) (hk : k < L) :
    castOk ((fts.map (·.1)).getD k blob_cast) (pyStrip ((padded_row L row).getD k [])) = true := by
  obtain ⟨hlen, hspec⟩ := infer_cols_spec true rows (List.range L) fts hinf
  obtain ⟨exData, hex, hg⟩ := hspec k (by simpa [List.length_range] using hk)
  rw [range_getD L k hk] at hex
  have hexeq : exData = rows.map (fun r => example_cell r k) := by
    rw [example_data_pad] at hex
    exact (Except.ok.inj hex).symm
  have hmem : example_cell row k ∈ exData := by
    rw [hexeq]
    exact List.mem_map_of_mem _ hrow
  have hcert := guess_over_certifies CAST_FUNCS exData _ hg (example_cell row k) hmem
  rw [pad_cell_strip L row k hk]
  rw [casts_getD_eq fts k (by rw [hlen, List.length_range]; exact hk)]
  exact hcert

theorem window_cast_ok_strict (rows : List (List (List Nat))) (L : Nat)
    (fts : List (CastFn × String)) (hinf : infer_cols false rows (List.range L) = .ok fts)
    (row : List (List Nat)) (hrow : row ∈ rows) (k : Nat) (hk : k < L) :
    castOk ((fts.map (·.1)).getD k blob_cast) (pyStrip (row.getD k [])) = true := by
  obtain ⟨hlen, hspec⟩ := infer_cols_spec false rows (List.range L) fts hinf
  obtain ⟨exData, hex, hg⟩ := hspec k (by simpa [List.length_range] using hk)
  rw [range_getD L k hk] at hex
  obtain ⟨hexeq, _⟩ := example_data_strict hex
  have hmem : pyStrip (row.getD k []) ∈ exData := by
    rw [hexeq]
    exact List.mem_map_of_mem _ hrow
  have hcert := guess_over_certifies CAST_FUNCS exData _ hg (pyStrip (row.getD k [])) hmem
  rw [casts_getD_eq fts k (by rw [hlen, List.length_range]; exact hk)]
  exact hcert

theorem insert_row_convError_pad {L : Nat} {casts : List CastFn} {row : List (List Nat)}
    {m : List Nat} (h : insert_row true L casts row = .error (.convError m)) :
    ∃ e0, convert_cells (casts.zip (padded_row L row)) = .error e0 ∧ wrap_exc e0 = .convError m := by
  simp only [insert_row, if_true] at h
  split at h
  · rename_i e0 hconv
    injection h with hw
    exact ⟨e0, hconv, hw⟩
  · rename_i tr hconv
    split at h
    · cases h
    · cases h

theorem insert_row_convError_strict {L : Nat} {casts : List CastFn} {row : List (List Nat)}
    {m : List Nat} (h : insert_row false L casts row = .error (.convError m)) :
    ∃ e0, convert_cells (casts.zip row) = .error e0 ∧ wrap_exc e0 = .convError m := by
  simp only [insert_row, Bool.false_eq_true, if_false] at h
  by_cases hl : row.length = L
  · rw [if_pos hl] at h
    split at h
    · rename_i e0 hconv
      injection h with hw
      exact ⟨e0, hconv, hw⟩
    · cases h
  · rw [if_neg hl] at h
    cases h

theorem insert_row_window_no_conv (pad : Bool) (rows : List (List (List Nat))) (L : Nat)
    (fts : List (CastFn × String)) (hinf : infer_cols pad rows (List.range L) = .ok fts)
    (row : List (List Nat)) (hrow : row ∈ rows) (m : List Nat) :
    insert_row pad L (fts.map (·.1)) row ≠ .error (.convError m) := by
  intro h
  have hftl : fts.length = L := by
    have := (infer_cols_spec pad rows (List.range L) fts hinf).1
    rw [List.length_range] at this
    exact this
  by_cases hpad : pad = true
  · subst hpad
    obtain ⟨t, ht⟩ : ∃ t, convert_cells ((fts.map (·.1)).zip (padded_row L row)) = .ok t := by
      apply convert_cells_ok_idx
      intro k hk1 _
      have hkL : k < L := by
        rw [List.length_map, hftl] at hk1
        exact hk1
      exact window_cast_ok_pad rows L fts hinf row hrow k hkL
    obtain ⟨e0, hconv, _⟩ := insert_row_convError_pad h
    rw [ht] at hconv
    cases hconv
  · have hpad2 : pad = false := by
      cases pad
      · rfl
      · exact absurd rfl hpad
    subst hpad2
    by_cases hl : row.length = L
    · obtain ⟨t, ht⟩ : ∃ t, convert_cells ((fts.map (·.1)).zip row) = .ok t := by
        apply convert_cells_ok_idx
        intro k hk1 _
        have hkL : k < L := by
          rw [List.length_map, hftl] at hk1
          exact hk1
        exact window_cast_ok_strict rows L fts hinf row hrow k hkL
      obtain ⟨e0, hconv, _⟩ := insert_row_convError_strict h
      rw [ht] at hconv
      cases hconv
    · simp [insert_row, hl] at h

/-- C8 counterexample: a conversion failure at insert time is not
always reported with the suggestion to increase the sample size, nor
with the literal failing value: with sample size 1, a TEXT column
guessed from the sampled value x, and the post-sample undecodable row
0xFF, the load fails with the not-a-valid-sequence message, which
contains neither the suggestion text nor the raw byte 255 (only its
repr escape). -/
theorem c8_counterexample :
    create_table 1 true [[97]] [[[120]], [[255]]]
      = .error (.convError (decode_err_msg UTF8_NAME [255])) ∧
    containsSeq SUGGESTION (decode_err_msg UTF8_NAME [255]) = false ∧
    containsSeq [255] (decode_err_msg UTF8_NAME [255]) = false :=
  ⟨rfl, by decide, by decide⟩

/-- C8 (amended): a conversion failure during insertion fails the load
with a conversion error whose message names the offending stripped
value: for an Integer cast failure the message is the suggestion text
followed by the int() message with the repr of the value, for a Float
cast failure the suggestion text followed by the float() message with
the value verbatim, and for an encoding failure the
not-a-valid-sequence message with the repr of the undecodable value
and no suggestion.  Such failures can occur only for rows outside the
sampling window: when every row lies inside the window (the row count
is at most the sample size), the inferred casts parse all of the
sampled values, so the load never fails with a conversion error. -/
theorem c8_type_conversion_failure :
    (∀ (n : Nat) (pad : Bool) (hdr : List (List Nat)) (rows : List (List (List Nat)))
        (m : List Nat), rows.length ≤ n →
      create_table n pad hdr rows ≠ .error (.convError m)) ∧
    (∀ (n : Nat) (pad : Bool) (hdr : List (List Nat)) (rows : List (List (List Nat)))
        (m : List Nat), create_table n pad hdr rows = .error (.convError m) →
      ∃ w, (m = SUGGESTION ++ INT_ERR ++ pyRepr w ∧
              containsSeq SUGGESTION m = true ∧ containsSeq (pyRepr w) m = true) ∨
           (m = SUGGESTION ++ FLOAT_ERR ++ w ∧
              containsSeq SUGGESTION m = true ∧ containsSeq w m = true) ∨
           (m = decode_err_msg UTF8_NAME w ∧ containsSeq (pyRepr w) m = true)) := by
  constructor
  · intro n pad hdr rows m hle heq
    have htake : rows.take n = rows := take_all_le rows n hle
    have hdrop : rows.drop n = [] := drop_all_le rows n hle
    simp only [create_table, htake, hdrop, List.append_nil] at heq
    split at heq
    · rename_i e hinf
      injection heq with he
      rcases infer_cols_err _ _ _ _ hinf with h1 | ⟨d, h2⟩
      · rw [he] at h1
        cases h1
      · rw [he] at h2
        cases h2
    · rename_i fts hinf
      split at heq
      · rename_i e hins
        injection heq with he
        subst he
        obtain ⟨row, hrow, hir⟩ := insert_all_err _ _ _ _ _ hins
        exact insert_row_window_no_conv pad rows _ fts hinf row hrow m hir
      · cases heq
  · intro n pad hdr rows m heq
    simp only [create_table] at heq
    split at heq
    · rename_i e hinf
      injection heq with he
      rcases infer_cols_err _ _ _ _ hinf with h1 | ⟨d, h2⟩
      · rw [he] at h1
        cases h1
      · rw [he] at h2
        cases h2
    · rename_i fts hinf
      split at heq
      · rename_i e hins
        injection heq with he
        subst he
        obtain ⟨row, hrow, hir⟩ := insert_all_err _ _ _ _ _ hins
        obtain ⟨cells, e0, hconv, hw⟩ := insert_row_convError _ _ _ _ _ hir
        have hsrc : ∀ p ∈ (fts.map (·.1)).zip cells, ∃ ft ∈ CAST_FUNCS, p.1 = ft.1 := by
          intro p hp
          have h1 : p.1 ∈ fts.map (·.1) := mem_zip_fst _ _ _ hp
          obtain ⟨ft, hftmem, hfe⟩ := List.mem_map.mp h1
          exact ⟨ft, infer_cols_mem_CAST _ _ _ _ hinf ft hftmem, hfe.symm⟩
        rcases convert_cells_err_shape _ _ hsrc hconv with ⟨w, hse⟩ | ⟨w, hse⟩ | ⟨w, hse⟩ | hse
        · subst hse
          simp only [wrap_exc] at hw
          have hm : m = SUGGESTION ++ (INT_ERR ++ pyRepr w) := (LoadError.convError.inj hw).symm
          refine ⟨w, Or.inl ⟨hm, ?_, ?_⟩⟩
          · rw [hm]
            have := containsSeq_of_append [] SUGGESTION (INT_ERR ++ pyRepr w)
            simpa using this
          · rw [hm]
            have := containsSeq_of_append (SUGGESTION ++ INT_ERR) (pyRepr w) []
            simpa [List.append_assoc] using this
        · subst hse
          simp only [wrap_exc] at hw
          have hm : m = SUGGESTION ++ (FLOAT_ERR ++ w) := (LoadError.convError.inj hw).symm
          refine ⟨w, Or.inr (Or.inl ⟨hm, ?_, ?_⟩)⟩
          · rw [hm]
            have := containsSeq_of_append [] SUGGESTION (FLOAT_ERR ++ w)
            simpa using this
          · rw [hm]
            have := containsSeq_of_append (SUGGESTION ++ FLOAT_ERR) w []
            simpa [List.append_assoc] using this
        · subst hse
          simp only [wrap_exc] at hw
          have hm : m = decode_err_msg UTF8_NAME w := (LoadError.convError.inj hw).symm
          refine ⟨w, Or.inr (Or.inr ⟨hm, ?_⟩)⟩
          rw [hm]
          have := containsSeq_of_append
            (bytesOf "not a valid " ++ [39] ++ UTF8_NAME ++ [39] ++ bytesOf " sequence: ")
            (pyRepr w) []
          simpa [decode_err_msg, List.append_assoc] using this
        · subst hse
          simp only [wrap_exc] at hw
          cases hw
      · cases heq

/-- C8 witness: both conjuncts applied at concrete loads: a one-row
file inside the sampling window never fails with a conversion error,
and a sample-size-1 load whose second row fails the Integer cast
produces the suggestion message naming the value. -/
theorem c8_witness :
    (([[[49]]] : List (List (List Nat))).length ≤ 5 ∧
      create_table 5 true [[97]] [[[49]]] ≠ .error (.convError [])) ∧
    (create_table 1 true [[97]] [[[49]], [[120]]]
        = .error (.convError (SUGGESTION ++ INT_ERR ++ pyRepr [120])) ∧
      ∃ w, ((SUGGESTION ++ INT_ERR ++ pyRepr [120] : List Nat)
                = SUGGESTION ++ INT_ERR ++ pyRepr w ∧
              containsSeq SUGGESTION (SUGGESTION ++ INT_ERR ++ pyRepr [120]) = true ∧
              containsSeq (pyRepr w) (SUGGESTION ++ INT_ERR ++ pyRepr [120]) = true) ∨
           ((SUGGESTION ++ INT_ERR ++ pyRepr [120] : List Nat) = SUGGESTION ++ FLOAT_ERR ++ w ∧
              containsSeq SUGGESTION (SUGGESTION ++ INT_ERR ++ pyRepr [120]) = true ∧
              containsSeq w (SUGGESTION ++ INT_ERR ++ pyRepr [120]) = true) ∨
           ((SUGGESTION ++ INT_ERR ++ pyRepr [120] : List Nat) = decode_err_msg UTF8_NAME w ∧
              containsSeq (pyRepr w) (SUGGESTION ++ INT_ERR ++ pyRepr [120]) = true)) :=
  ⟨⟨by decide, c8_type_conversion_failure.1 5 true [[97]] [[[49]]] [] (by decide)⟩,
   ⟨by rfl, c8_type_conversion_failure.2 1 true [[97]] [[[49]], [[120]]] _ (by rfl)⟩⟩
